import Mathlib

/-!
# Ketpa backend: appointment booking, cancellation and the confirmation mail

A shallow embedding of `src/controllers/userController.js` (the handlers
`bookAppointment` and `cancelAppointment`) and of `src/controllers/mailer.js`
(the helpers `formatDateForCalendar`, `formatTimeForCalendar`, `fillTemplate`).

The document store is explicit state: three collections, each kept in insertion
order.  A handler is a function from the store and the request body to the JSON
response and the store afterwards.  Every handler body sits in a `try`/`catch`
whose `catch` answers `{success:false, message:error.message}`; a thrown
`TypeError` is therefore a value of `JsError`, turned into a response by `caught`,
and the writes made before the throw stay in the store.
-/

namespace Ketpa

/-! ## JavaScript objects as ordered key/value lists -/

/-- Own-property lookup `obj[k]`: the value of the first entry whose key is `k`. -/
def findById {α : Type} : List (String × α) → String → Option α
  | [], _ => none
  | (k, v) :: rest, id => if k = id then some v else findById rest id

/-- Property assignment `obj[k] = v`: overwrite the entry of `k` in place, or append a
new entry when `k` is not yet an own key. -/
def setKey {α : Type} : List (String × α) → String → α → List (String × α)
  | [], k, v => [(k, v)]
  | (k', v') :: rest, k, v =>
    if k' = k then (k, v) :: rest else (k', v') :: setKey rest k v

/-- The mongoose call `findByIdAndUpdate(id, patch)`: the first record whose id is `id` is
patched; a collection without such a record is left as it is. -/
def updateById {α : Type} : List (String × α) → String → (α → α) → List (String × α)
  | [], _, _ => []
  | (k, v) :: rest, id, f =>
    if k = id then (k, f v) :: rest else (k, v) :: updateById rest id f

/-- Property names every plain object inherits from `Object.prototype`. -/
def objectPrototypeKeys : List String :=
  ["constructor", "__proto__", "hasOwnProperty", "isPrototypeOf", "propertyIsEnumerable",
   "toLocaleString", "toString", "valueOf", "__defineGetter__", "__defineSetter__",
   "__lookupGetter__", "__lookupSetter__"]

/-- What reading `slots_booked[slotDate]` yields. -/
inductive SlotsRead
  | undefined
  | array (times : List String)
  | inherited
  deriving DecidableEq, Repr

/-- A doctor's `slots_booked`: date label to the booked time labels, in insertion order. -/
abbrev Ledger := List (String × List String)

/-- The read `slots_booked[slotDate]` on a plain object: an own entry wins, otherwise a
name of `Object.prototype` yields the inherited (truthy, non-array) member, otherwise
`undefined`. -/
def getProp (slots_booked : Ledger) (slotDate : String) : SlotsRead :=
  match findById slots_booked slotDate with
  | some times => .array times
  | none => if slotDate ∈ objectPrototypeKeys then .inherited else .undefined

/-! ## Records and the store -/

/-- The fields of a user record that `bookAppointment` reads: `phone`, where `none` is a
missing (`undefined`/`null`) field. -/
structure User where
  phone : Option String
  deriving DecidableEq, Repr

/-- The fields of a doctor record read or written by the two handlers. -/
structure Doctor where
  available : Bool
  fees : Nat
  slots_booked : Ledger
  deriving DecidableEq, Repr

/-- An appointment record: the fields of `appointmentData` the handlers read back, and the
`cancelled` flag (schema default `false`).  The two snapshots `userData`/`docData` and the
creation timestamp are written once and never read by either handler; they are left out. -/
structure Appointment where
  userId : String
  docId : String
  amount : Nat
  slotTime : String
  slotDate : String
  cancelled : Bool
  deriving DecidableEq, Repr

/-- The three collections.  An appointment's `_id` is its position in `appointments`:
records are only ever appended or patched, never removed.  User and doctor ids are the
strings the requests carry. -/
structure Store where
  users : List (String × User)
  doctors : List (String × Doctor)
  appointments : List Appointment
  deriving DecidableEq, Repr

/-- The JSON answer `{success, message}` of a handler. -/
structure Response where
  success : Bool
  message : String
  deriving DecidableEq, Repr

/-- The `TypeError`s the two handler bodies can throw. -/
inductive JsError
  | readOfNull (property : String)
  | readOfUndefined (property : String)
  | notAFunction (callee : String)
  deriving DecidableEq, Repr

/-- The `error.message` text (V8 wording). -/
def JsError.message : JsError → String
  | .readOfNull p => "Cannot read properties of null (reading '" ++ p ++ "')"
  | .readOfUndefined p => "Cannot read properties of undefined (reading '" ++ p ++ "')"
  | .notAFunction c => c ++ " is not a function"

/-- The `catch (error)` block shared by the handlers. -/
def caught (e : JsError) : Response :=
  { success := false, message := e.message }

/-- Request body of `bookAppointment`. -/
structure BookRequest where
  userId : String
  docId : String
  slotDate : String
  slotTime : String
  deriving DecidableEq, Repr

/-- Request body of `cancelAppointment`. -/
structure CancelRequest where
  userId : String
  appointmentId : Nat
  deriving DecidableEq, Repr

/-- The test `!userData.phone || userData.phone === "0000000000"`. -/
def phoneMissing : Option String → Bool
  | none => true
  | some p => p == "" || p == "0000000000"

/-- The tail of `bookAppointment` once the slot is reserved in memory: save the new
appointment, write the ledger back to the doctor, answer success. -/
def commitBooking (s : Store) (req : BookRequest) (docData : Doctor) (slots_booked : Ledger) :
    Response × Store :=
  ({ success := true, message := "Appointment Booked" },
   { s with
     appointments := s.appointments ++
       [{ userId := req.userId, docId := req.docId, amount := docData.fees,
          slotTime := req.slotTime, slotDate := req.slotDate, cancelled := false }]
     doctors := updateById s.doctors req.docId
       (fun d => { d with slots_booked := slots_booked }) })

/-- The handler `bookAppointment` (userController.js, lines 160-219). -/
def bookAppointment (s : Store) (req : BookRequest) : Response × Store :=
  match findById s.doctors req.docId with
  | none => (caught (.readOfNull "available"), s)
  | some docData =>
    if !docData.available then
      ({ success := false, message := "Doctor not available" }, s)
    else
      let slots_booked := docData.slots_booked
      match findById s.users req.userId with
      | none => (caught (.readOfNull "phone"), s)
      | some userData =>
        if phoneMissing userData.phone then
          ({ success := false,
             message := "To book an appointment add contact number to profile" }, s)
        else
          match getProp slots_booked req.slotDate with
          | .array times =>
            if times.contains req.slotTime then
              ({ success := false, message := "Slot not available" }, s)
            else
              commitBooking s req docData
                (setKey slots_booked req.slotDate (times ++ [req.slotTime]))
          | .undefined =>
            commitBooking s req docData (setKey slots_booked req.slotDate [req.slotTime])
          | .inherited =>
            (caught (.notAFunction "slots_booked[slotDate].includes"), s)

/-- The write `findByIdAndUpdate(appointmentId, {cancelled:true})`. -/
def markCancelled (as : List Appointment) (appointmentId : Nat) : List Appointment :=
  as.modify (fun a => { a with cancelled := true }) appointmentId

/-- The handler `cancelAppointment` (userController.js, lines 237-268). -/
def cancelAppointment (s : Store) (req : CancelRequest) : Response × Store :=
  match s.appointments[req.appointmentId]? with
  | none => (caught (.readOfNull "userId"), s)
  | some appointmentData =>
    if appointmentData.userId != req.userId then
      ({ success := false, message := "Unauthorized action" }, s)
    else
      let s1 : Store :=
        { s with appointments := markCancelled s.appointments req.appointmentId }
      match findById s1.doctors appointmentData.docId with
      | none => (caught (.readOfNull "slots_booked"), s1)
      | some doctorData =>
        let slots_booked := doctorData.slots_booked
        match getProp slots_booked appointmentData.slotDate with
        | .undefined => (caught (.readOfUndefined "filter"), s1)
        | .inherited => (caught (.notAFunction "slots_booked[slotDate].filter"), s1)
        | .array times =>
          ({ success := true, message := "Appointment Cancelled" },
           { s1 with
             doctors := updateById s1.doctors appointmentData.docId
               (fun d => { d with
                 slots_booked := setKey slots_booked appointmentData.slotDate
                   (times.filter (fun e => e != appointmentData.slotTime)) }) })

/-- One request to the booking API. -/
inductive Request
  | book (req : BookRequest)
  | cancel (req : CancelRequest)
  deriving DecidableEq, Repr

/-- The store after a request has been served. -/
def step (s : Store) : Request → Store
  | .book req => (bookAppointment s req).2
  | .cancel req => (cancelAppointment s req).2

/-- The store after a sequence of requests served one at a time. -/
def run (s : Store) (reqs : List Request) : Store :=
  reqs.foldl step s

/-! ## mailer.js

Strings are handled as their character lists.  `none` as the result of
`formatTimeForCalendar` or `fillTemplate` marks an input outside the modelled fragment
(an hour or minute field that is absent or not a short digit string, a key that is not an
identifier); it is not a value the JavaScript function returns. -/

/-- The call `s.split(sep)` for a one-character separator. -/
def splitOn (sep : Char) : List Char → List (List Char)
  | [] => [[]]
  | c :: cs =>
    if c = sep then [] :: splitOn sep cs
    else
      match splitOn sep cs with
      | [] => [[c]]
      | p :: ps => (c :: p) :: ps

/-- Interpolation `${x}` of an array element obtained by destructuring: a missing element
is `undefined` and prints as such. -/
def interpolate : Option (List Char) → List Char
  | none => "undefined".data
  | some s => s

/-- The helper `formatDateForCalendar` (mailer.js, lines 18-21). -/
def formatDateForCalendar (dateStr : String) : String :=
  let parts := splitOn '_' dateStr.data
  let day := parts.get? 0
  let month := parts.get? 1
  let year := parts.get? 2
  String.mk (interpolate year ++ interpolate month ++ interpolate day)

/-- The conversion `Number(s)` on strings of at most nine ASCII decimal digits (the empty
string converts to 0); every such value and every sum formed from it below is an exact
double.  Other numerals and `NaN` are outside the modelled fragment. -/
def jsNumber (s : List Char) : Option Nat :=
  if s.all Char.isDigit && decide (s.length ≤ 9) then
    some (s.foldl (fun n c => 10 * n + (c.toNat - 48)) 0)
  else none

/-- The call `s.toUpperCase()`, on ASCII letters.  The only strings whose upper-case form
is `AM` or `PM` consist of the ASCII letters a, m, p in either case, so the two
comparisons of `formatTimeForCalendar` are decided as in JavaScript. -/
def toUpperCase (s : List Char) : List Char :=
  s.map Char.toUpper

/-- The call `s.padStart(n, c)` with a one-character filler. -/
def padStart (n : Nat) (c : Char) (s : List Char) : List Char :=
  List.replicate (n - s.length) c ++ s

/-- The inner `format` of `formatTimeForCalendar`.  A `Date` is held as the minutes elapsed
since local midnight of 1 January 2000 (the local zone keeps one UTC offset over the
period, as IST does), so `getHours()` is `t / 60 % 24` and `getMinutes()` is `t % 60`. -/
def format (d : Nat) : String :=
  String.mk (padStart 2 '0' (toString (d / 60 % 24)).data ++
    padStart 2 '0' (toString (d % 60)).data ++ "00".data)

/-- The object `{ start, end }` returned by `formatTimeForCalendar`; the field `end` is
called `stop` here. -/
structure CalendarTime where
  start : String
  stop : String
  deriving DecidableEq, Repr

/-- The helper `formatTimeForCalendar` (mailer.js, lines 26-43). -/
def formatTimeForCalendar (timeStr : String) : Option CalendarTime :=
  let parts := splitOn ' ' timeStr.data
  let time := parts.headD []
  let modifier := parts.get? 1
  let fields := splitOn ':' time
  match (fields.get? 0).bind jsNumber, (fields.get? 1).bind jsNumber with
  | some hours, some minutes =>
    let upper := modifier.map toUpperCase
    let hours := if upper = some "PM".data ∧ hours ≠ 12 then hours + 12 else hours
    let hours := if upper = some "AM".data ∧ hours = 12 then 0 else hours
    let start := hours * 60 + minutes
    let stop := start + 60
    some { start := format start, stop := format stop }
  | _, _ => none

/-- The replacement text of one match (ECMAScript `GetSubstitution`) for a pattern without
capture groups: `$$` is a dollar sign, `$&` the matched text, `$` followed by a backtick
the text before the match, `$` followed by an apostrophe the text after it; any other
character, a lone `$` included, stands for itself. -/
def getSubstitution (matched before after : List Char) : List Char → List Char
  | [] => []
  | [c] => [c]
  | c :: d :: rest =>
    if c = '$' then
      if d = '$' then '$' :: getSubstitution matched before after rest
      else if d = '&' then matched ++ getSubstitution matched before after rest
      else if d = Char.ofNat 96 then before ++ getSubstitution matched before after rest
      else if d = Char.ofNat 39 then after ++ getSubstitution matched before after rest
      else c :: getSubstitution matched before after (d :: rest)
    else c :: getSubstitution matched before after (d :: rest)

/-- The scan of `acc.replace(/pat/g, repl)` for a non-empty literal pattern: `skip` counts
the characters of the current match still to be passed over, `before` is the text already
scanned.  Matches are taken left to right and do not overlap. -/
def replaceScan (pat repl : List Char) : Nat → List Char → List Char → List Char
  | _, _, [] => []
  | skip + 1, before, c :: rest => replaceScan pat repl skip (before ++ [c]) rest
  | 0, before, c :: rest =>
    if pat.isPrefixOf (c :: rest) then
      getSubstitution pat before ((c :: rest).drop pat.length) repl ++
        replaceScan pat repl (pat.length - 1) (before ++ [c]) rest
    else c :: replaceScan pat repl 0 (before ++ [c]) rest

/-- Keys for which the source text `{{key}}` of the regular expression denotes exactly
that text: an ASCII letter or underscore followed by ASCII letters, digits, underscores. -/
def isIdentifier (key : List Char) : Bool :=
  match key with
  | [] => false
  | c :: cs => (c.isAlpha || c == '_') && cs.all (fun x => x.isAlphanum || x == '_')

/-- The helper `fillTemplate` (mailer.js, lines 48-54).  `data` lists `Object.entries(data)`
in order; a value is `none` for `null`/`undefined` and otherwise the text of the value. -/
def fillTemplate (template : String) (data : List (String × Option String)) : Option String :=
  data.foldl
    (fun acc entry =>
      match acc with
      | none => none
      | some text =>
        if isIdentifier entry.1.data then
          some (String.mk (replaceScan ("\x7b\x7b".data ++ entry.1.data ++ "\x7d\x7d".data)
            (entry.2.getD "").data 0 [] text.data))
        else none)
    (some template)

/-! ## Observations on a store -/

/-- Whether `time` is recorded under `date` in the persisted ledger of doctor `docId`. -/
def slotBooked (s : Store) (docId date time : String) : Bool :=
  match findById s.doctors docId with
  | none => false
  | some d =>
    match findById d.slots_booked date with
    | none => false
    | some times => times.contains time

/-- No time label occurs twice under any date in any doctor's ledger. -/
def LedgerUnique (s : Store) : Prop :=
  ∀ d ∈ s.doctors, ∀ e ∈ d.2.slots_booked, e.2.Nodup

instance (s : Store) : Decidable (LedgerUnique s) := by
  unfold LedgerUnique; infer_instance

/-- Every doctor's ledger is the empty object. -/
def EmptyLedgers (s : Store) : Prop :=
  ∀ d ∈ s.doctors, d.2.slots_booked = []

instance (s : Store) : Decidable (EmptyLedgers s) := by
  unfold EmptyLedgers; infer_instance

/-- The (doctor, date, time) triples of the appointments whose cancelled flag is false. -/
def activeSlots (s : Store) : List (String × String × String) :=
  (s.appointments.filter (fun a => !a.cancelled)).map
    (fun a => (a.docId, a.slotDate, a.slotTime))

/-- No two appointments that are not cancelled share (doctor, date, time). -/
def NoDoubleBooking (s : Store) : Prop :=
  (activeSlots s).Nodup

instance (s : Store) : Decidable (NoDoubleBooking s) := by
  unfold NoDoubleBooking; infer_instance

/-- Every appointment that is not cancelled has its time recorded under its date in the
ledger of its doctor. -/
def ActiveSlotsBooked (s : Store) : Prop :=
  ∀ a ∈ s.appointments, a.cancelled = false →
    slotBooked s a.docId a.slotDate a.slotTime = true

instance (s : Store) : Decidable (ActiveSlotsBooked s) := by
  unfold ActiveSlotsBooked; infer_instance

/-- A request that does not cancel an appointment already marked cancelled. -/
def Request.fresh (s : Store) : Request → Bool
  | .book _ => true
  | .cancel req =>
    (s.appointments[req.appointmentId]?).map (fun a => a.cancelled) != some true

/-- A sequence of requests, served from `s`, in which no appointment is cancelled twice. -/
def FreshRun : Store → List Request → Bool
  | _, [] => true
  | s, r :: rest => r.fresh s && FreshRun (step s r) rest

/-- The two-character zero-padded decimal form of `n`, as `padStart(2, "0")` builds it. -/
def twoDigits (n : Nat) : String :=
  String.mk (padStart 2 '0' (toString n).data)

/-- The substitution as the specification words it, for comparison with `fillTemplate`: one
pass over the template in which every `{{k}}` with `k` a key of `data` is replaced by the
text of its value (empty for `null`/`undefined`) and every other character is copied.
`skip` counts the characters of the current placeholder still to be passed over. -/
def substituteExact (data : List (String × Option String)) : Nat → List Char → List Char
  | _, [] => []
  | skip + 1, _ :: rest => substituteExact data skip rest
  | 0, c :: rest =>
    match data.find?
      (fun e => ("\x7b\x7b".data ++ e.1.data ++ "\x7d\x7d".data).isPrefixOf (c :: rest)) with
    | some e => (e.2.getD "").data ++ substituteExact data (e.1.length + 3) rest
    | none => c :: substituteExact data 0 rest

/-! ## Concrete stores used to evaluate the handlers -/

/-- A clinic with one available doctor, an empty ledger, three users and no appointment. -/
def clinic : Store :=
  { users := [("U1", ⟨some "+91 98765 43210"⟩), ("U2", ⟨some "+91 91234 56789"⟩),
      ("U3", ⟨some "0000000000"⟩)],
    doctors := [("D1", ⟨true, 500, []⟩), ("D2", ⟨false, 300, []⟩)],
    appointments := [] }

/-- A store in which the doctor's ledger has no entry for the date of the one appointment. -/
def staleClinic : Store :=
  { users := [("U1", ⟨some "+91 98765 43210"⟩)],
    doctors := [("D1", ⟨true, 500, []⟩)],
    appointments := [⟨"U1", "D1", 500, "10:00 AM", "01_01_2030", false⟩] }

/-- Five requests served in turn: U1 books a slot, cancels it, U2 books the same slot, U1
cancels the first appointment once more, U1 books the slot again. -/
def doubleCancel : List Request :=
  [.book ⟨"U1", "D1", "01_01_2030", "10:00 AM"⟩,
   .cancel ⟨"U1", 0⟩,
   .book ⟨"U2", "D1", "01_01_2030", "10:00 AM"⟩,
   .cancel ⟨"U1", 0⟩,
   .book ⟨"U1", "D1", "01_01_2030", "10:00 AM"⟩]

/-! ## Lookup after a write -/

theorem findById_updateById {α : Type} (l : List (String × α)) (id k : String) (f : α → α) :
    findById (updateById l id f) k =
      if k = id then (findById l k).map f else findById l k := by
  induction l with
  | nil => simp [updateById, findById]
  | cons e rest ih =>
    obtain ⟨k0, v0⟩ := e
    by_cases h0 : k0 = id
    · subst h0
      by_cases h1 : k0 = k
      · subst h1; simp [updateById, findById]
      · have h2 : ¬ k = k0 := fun h => h1 h.symm
        simp [updateById, findById, h1, h2]
    · by_cases h1 : k0 = k
      · subst h1; simp [updateById, findById, h0]
      · simp [updateById, findById, h0, h1, ih]

theorem findById_setKey {α : Type} (l : List (String × α)) (k k' : String) (v : α) :
    findById (setKey l k v) k' = if k' = k then some v else findById l k' := by
  induction l with
  | nil =>
    by_cases h : k' = k
    · subst h; simp [setKey, findById]
    · have h2 : ¬ k = k' := fun e => h e.symm
      simp [setKey, findById, h, h2]
  | cons e rest ih =>
    obtain ⟨k0, v0⟩ := e
    by_cases h0 : k0 = k
    · subst h0
      by_cases h1 : k' = k0
      · subst h1; simp [setKey, findById]
      · have h2 : ¬ k0 = k' := fun e => h1 e.symm
        simp [setKey, findById, h1, h2]
    · by_cases h1 : k0 = k'
      · subst h1
        have h2 : ¬ k0 = k := h0
        simp [setKey, findById, h0]
      · simp [setKey, findById, h0, h1, ih]

theorem getProp_setKey_same (l : Ledger) (k : String) (v : List String) :
    getProp (setKey l k v) k = .array v := by
  simp [getProp, findById_setKey]

theorem getProp_array_iff (l : Ledger) (k : String) (v : List String) :
    getProp l k = .array v ↔ findById l k = some v := by
  unfold getProp
  cases h : findById l k with
  | none => by_cases hk : k ∈ objectPrototypeKeys <;> simp [hk]
  | some w => simp

/-- What a successful booking found and what it wrote. -/
theorem bookAppointment_success (s : Store) (req : BookRequest)
    (h : (bookAppointment s req).1.success = true) :
    ∃ docData userData old,
      findById s.doctors req.docId = some docData ∧ docData.available = true ∧
      findById s.users req.userId = some userData ∧ phoneMissing userData.phone = false ∧
      ((getProp docData.slots_booked req.slotDate = .array old ∧ req.slotTime ∉ old) ∨
        (getProp docData.slots_booked req.slotDate = .undefined ∧ old = [])) ∧
      bookAppointment s req =
        commitBooking s req docData
          (setKey docData.slots_booked req.slotDate (old ++ [req.slotTime])) := by
  cases hd : findById s.doctors req.docId with
  | none => simp [bookAppointment, hd, caught] at h
  | some docData =>
    cases ha : docData.available with
    | false => simp [bookAppointment, hd, ha] at h
    | true =>
      cases hu : findById s.users req.userId with
      | none => simp [bookAppointment, hd, ha, hu, caught] at h
      | some userData =>
        cases hp : phoneMissing userData.phone with
        | true => simp [bookAppointment, hd, ha, hu, hp] at h
        | false =>
          cases hg : getProp docData.slots_booked req.slotDate with
          | inherited => simp [bookAppointment, hd, ha, hu, hp, hg, caught] at h
          | undefined =>
            refine ⟨docData, userData, [], rfl, ha, rfl, hp, Or.inr ⟨hg, rfl⟩, ?_⟩
            simp [bookAppointment, hd, ha, hu, hp, hg]
          | array times =>
            by_cases hc : req.slotTime ∈ times
            · simp [bookAppointment, hd, ha, hu, hp, hg, hc] at h
            · refine ⟨docData, userData, times, rfl, ha, rfl, hp, Or.inl ⟨hg, hc⟩, ?_⟩
              simp [bookAppointment, hd, ha, hu, hp, hg, hc]

/-- What a cancellation by the owner does when the doctor exists and the date has an entry. -/
theorem cancelAppointment_release (s : Store) (req : CancelRequest) (a : Appointment)
    (d : Doctor) (times : List String)
    (ha : s.appointments[req.appointmentId]? = some a) (hown : a.userId = req.userId)
    (hd : findById s.doctors a.docId = some d)
    (ht : findById d.slots_booked a.slotDate = some times) :
    cancelAppointment s req =
      ({ success := true, message := "Appointment Cancelled" },
       { users := s.users
         appointments := markCancelled s.appointments req.appointmentId
         doctors := updateById s.doctors a.docId
           (fun x => { x with
             slots_booked := setKey d.slots_booked a.slotDate
               (times.filter (fun e => e != a.slotTime)) }) }) := by
  have hg : getProp d.slots_booked a.slotDate = .array times :=
    (getProp_array_iff _ _ _).2 ht
  simp [cancelAppointment, ha, hown, hd, hg]

theorem phoneMissing_eq_false (p : Option String)
    (h : p ≠ none ∧ p ≠ some "" ∧ p ≠ some "0000000000") : phoneMissing p = false := by
  cases p with
  | none => exact absurd rfl h.1
  | some q =>
    have h1 : q ≠ "" := fun e => h.2.1 (by rw [e])
    have h2 : q ≠ "0000000000" := fun e => h.2.2 (by rw [e])
    simp [phoneMissing, h1, h2]

/-! ## Booking -/

/-- C1: after a successful booking of (D, date, time), a second booking of the same slot by
any user present with a usable phone is answered `success:false`, "Slot not available",
and the store (appointments and every ledger) is exactly as the first booking left it. -/
theorem bookAppointment_same_slot_twice (s : Store) (u1 u2 D date time : String) (user2 : User)
    (h1 : (bookAppointment s ⟨u1, D, date, time⟩).1.success = true)
    (hu2 : findById s.users u2 = some user2)
    (hp2 : user2.phone ≠ none ∧ user2.phone ≠ some "" ∧ user2.phone ≠ some "0000000000") :
    bookAppointment (bookAppointment s ⟨u1, D, date, time⟩).2 ⟨u2, D, date, time⟩ =
      ({ success := false, message := "Slot not available" },
       (bookAppointment s ⟨u1, D, date, time⟩).2) := by
  obtain ⟨docData, userData, old, hd, ha, -, -, -, heq⟩ := bookAppointment_success s _ h1
  have hp := phoneMissing_eq_false _ hp2
  simp only at hd ha heq
  rw [heq]
  simp [bookAppointment, commitBooking, findById_updateById, hd, ha, hu2, hp,
    getProp_setKey_same]

/-- C3: a cancellation request whose user id differs from the stored user id of the
(existing) appointment is answered `success:false`, "Unauthorized action", and the store is
untouched: no cancelled flag and no ledger changes. -/
theorem cancelAppointment_non_owner (s : Store) (req : CancelRequest) (a : Appointment)
    (ha : s.appointments[req.appointmentId]? = some a) (hne : req.userId ≠ a.userId) :
    cancelAppointment s req = ({ success := false, message := "Unauthorized action" }, s) := by
  have h : ¬ a.userId = req.userId := fun e => hne e.symm
  simp [cancelAppointment, ha, h]

/-- C8: with doctor and user present, an unavailable doctor gives "Doctor not available";
an available doctor and a phone that is missing, empty or "0000000000" gives the
add-contact-number message; either way the store is returned unchanged, whatever the
ledger says about the requested slot. -/
theorem bookAppointment_validation_atomic (s : Store) (req : BookRequest)
    (docData : Doctor) (userData : User)
    (hd : findById s.doctors req.docId = some docData)
    (hu : findById s.users req.userId = some userData) :
    (docData.available = false →
      bookAppointment s req = ({ success := false, message := "Doctor not available" }, s)) ∧
    (docData.available = true →
      (userData.phone = none ∨ userData.phone = some "" ∨
        userData.phone = some "0000000000") →
      bookAppointment s req =
        ({ success := false,
           message := "To book an appointment add contact number to profile" }, s)) := by
  constructor
  · intro ha
    simp [bookAppointment, hd, ha]
  · intro ha hp
    have hm : phoneMissing userData.phone = true := by
      rcases hp with h | h | h <;> rw [h] <;> rfl
    simp [bookAppointment, hd, ha, hu, hm]

/-- C2: when a booking by U of (D, date, time) succeeds, the persisted ledger of D holds
`time` under `date` and the new appointment is the last record; U cancelling that record
gets `success:true`, the ledger no longer holds `time` under `date`, the record's cancelled
flag is true, and booking the same slot again succeeds. -/
theorem book_then_cancel_restores (s : Store) (U D date time : String)
    (h : (bookAppointment s ⟨U, D, date, time⟩).1.success = true) :
    slotBooked (bookAppointment s ⟨U, D, date, time⟩).2 D date time = true ∧
    (∃ fee, (bookAppointment s ⟨U, D, date, time⟩).2.appointments =
      s.appointments ++ [⟨U, D, fee, time, date, false⟩]) ∧
    (cancelAppointment (bookAppointment s ⟨U, D, date, time⟩).2
        ⟨U, s.appointments.length⟩).1 =
      { success := true, message := "Appointment Cancelled" } ∧
    slotBooked (cancelAppointment (bookAppointment s ⟨U, D, date, time⟩).2
        ⟨U, s.appointments.length⟩).2 D date time = false ∧
    ((cancelAppointment (bookAppointment s ⟨U, D, date, time⟩).2
        ⟨U, s.appointments.length⟩).2.appointments[s.appointments.length]?).map
      (fun a => a.cancelled) = some true ∧
    (bookAppointment (cancelAppointment (bookAppointment s ⟨U, D, date, time⟩).2
        ⟨U, s.appointments.length⟩).2 ⟨U, D, date, time⟩).1 =
      { success := true, message := "Appointment Booked" } := by
  obtain ⟨docData, userData, old, hd, ha, hu, hp, -, heq⟩ := bookAppointment_success s _ h
  simp only at hd ha hu hp heq
  rw [heq]
  have hc := cancelAppointment_release
    (commitBooking s ⟨U, D, date, time⟩ docData
      (setKey docData.slots_booked date (old ++ [time]))).2
    ⟨U, s.appointments.length⟩ ⟨U, D, docData.fees, time, date, false⟩
    { docData with slots_booked := setKey docData.slots_booked date (old ++ [time]) }
    (old ++ [time])
    (by simp [commitBooking]) rfl
    (by simp [commitBooking, findById_updateById, hd])
    (by simp [findById_setKey])
  simp only at hc
  rw [hc]
  refine ⟨?_, ⟨docData.fees, ?_⟩, rfl, ?_, ?_, ?_⟩
  · simp [slotBooked, commitBooking, findById_updateById, hd, findById_setKey]
  · simp [commitBooking]
  · simp [slotBooked, commitBooking, findById_updateById, hd, findById_setKey]
  · simp [commitBooking, markCancelled, List.getElem?_modify]
  · have hf2 : time ∉ List.filter (fun e => e != time) old := by
      simp [List.mem_filter]
    simp [bookAppointment, commitBooking, findById_updateById, hd, ha, hu, hp,
      getProp_setKey_same, hf2]

/-! ## Ledger uniqueness -/

theorem mem_of_findById {α : Type} (l : List (String × α)) (k : String) (v : α)
    (h : findById l k = some v) : (k, v) ∈ l := by
  induction l with
  | nil => simp [findById] at h
  | cons e rest ih =>
    obtain ⟨k0, v0⟩ := e
    by_cases h0 : k0 = k
    · subst h0
      simp [findById] at h
      simp [h]
    · simp [findById, h0] at h
      exact List.mem_cons_of_mem _ (ih h)

theorem mem_setKey {α : Type} (l : List (String × α)) (k : String) (v : α)
    (e : String × α) (h : e ∈ setKey l k v) : e ∈ l ∨ e = (k, v) := by
  induction l with
  | nil => simpa [setKey] using h
  | cons e0 rest ih =>
    obtain ⟨k0, v0⟩ := e0
    by_cases h0 : k0 = k
    · simp [setKey, h0] at h
      rcases h with h | h
      · exact Or.inr h
      · exact Or.inl (List.mem_cons_of_mem _ h)
    · simp [setKey, h0] at h
      rcases h with h | h
      · exact Or.inl (by simp [h])
      · rcases ih h with h' | h'
        · exact Or.inl (List.mem_cons_of_mem _ h')
        · exact Or.inr h'

theorem mem_updateById {α : Type} (l : List (String × α)) (id : String) (f : α → α)
    (e : String × α) (h : e ∈ updateById l id f) :
    e ∈ l ∨ ∃ v, findById l id = some v ∧ e = (id, f v) := by
  induction l with
  | nil => simp [updateById] at h
  | cons e0 rest ih =>
    obtain ⟨k0, v0⟩ := e0
    by_cases h0 : k0 = id
    · subst h0
      simp [updateById] at h
      rcases h with h | h
      · exact Or.inr ⟨v0, by simp [findById], h⟩
      · exact Or.inl (List.mem_cons_of_mem _ h)
    · simp [updateById, h0] at h
      rcases h with h | h
      · exact Or.inl (by simp [h])
      · rcases ih h with h' | ⟨v, hv, he⟩
        · exact Or.inl (List.mem_cons_of_mem _ h')
        · exact Or.inr ⟨v, by simp [findById, h0, hv], he⟩

/-- Writing back a ledger whose entries are duplicate-free keeps `LedgerUnique`. -/
theorem LedgerUnique_write (s : Store) (docId : String) (ledger : Ledger)
    (as : List Appointment) (hs : LedgerUnique s) (hl : ∀ e ∈ ledger, e.2.Nodup) :
    LedgerUnique
      { users := s.users, appointments := as,
        doctors := updateById s.doctors docId (fun d => { d with slots_booked := ledger }) } := by
  intro d hd e he
  rcases mem_updateById _ _ _ _ hd with h | ⟨v, -, rfl⟩
  · exact hs d h e he
  · exact hl e he

theorem setKey_entries_nodup (ledger : Ledger) (date : String) (times : List String)
    (hl : ∀ e ∈ ledger, e.2.Nodup) (ht : times.Nodup) :
    ∀ e ∈ setKey ledger date times, e.2.Nodup := by
  intro e he
  rcases mem_setKey _ _ _ _ he with h | rfl
  · exact hl e h
  · exact ht

/-- A booking that is not answered with success leaves the store as it was. -/
theorem bookAppointment_failure (s : Store) (req : BookRequest)
    (h : (bookAppointment s req).1.success = false) : (bookAppointment s req).2 = s := by
  cases hd : findById s.doctors req.docId with
  | none => simp [bookAppointment, hd]
  | some docData =>
    cases ha : docData.available with
    | false => simp [bookAppointment, hd, ha]
    | true =>
      cases hu : findById s.users req.userId with
      | none => simp [bookAppointment, hd, ha, hu]
      | some userData =>
        cases hp : phoneMissing userData.phone with
        | true => simp [bookAppointment, hd, ha, hu, hp]
        | false =>
          cases hg : getProp docData.slots_booked req.slotDate with
          | inherited => simp [bookAppointment, hd, ha, hu, hp, hg]
          | undefined => simp [bookAppointment, hd, ha, hu, hp, hg, commitBooking] at h
          | array times =>
            by_cases hc : req.slotTime ∈ times
            · simp [bookAppointment, hd, ha, hu, hp, hg, hc]
            · simp [bookAppointment, hd, ha, hu, hp, hg, hc, commitBooking] at h

theorem bookAppointment_LedgerUnique (s : Store) (req : BookRequest) (hs : LedgerUnique s) :
    LedgerUnique (bookAppointment s req).2 := by
  cases hsucc : (bookAppointment s req).1.success with
  | false => rw [bookAppointment_failure s req hsucc]; exact hs
  | true =>
    obtain ⟨docData, userData, old, hd, -, -, -, hcase, heq⟩ :=
      bookAppointment_success s req hsucc
    rw [heq]
    have hdoc : ∀ e ∈ docData.slots_booked, e.2.Nodup :=
      hs _ (mem_of_findById _ _ _ hd)
    apply LedgerUnique_write s _ _ _ hs
    apply setKey_entries_nodup _ _ _ hdoc
    rcases hcase with ⟨hg, hnot⟩ | ⟨-, rfl⟩
    · have hold : old.Nodup :=
        hdoc _ (mem_of_findById _ _ _ ((getProp_array_iff _ _ _).1 hg))
      exact List.Nodup.append hold (List.nodup_singleton _) (by simpa using hnot)
    · simp

theorem cancelAppointment_LedgerUnique (s : Store) (req : CancelRequest)
    (hs : LedgerUnique s) : LedgerUnique (cancelAppointment s req).2 := by
  cases ha : s.appointments[req.appointmentId]? with
  | none => simpa [cancelAppointment, ha] using hs
  | some a =>
    by_cases hown : a.userId = req.userId
    · have hs1 : LedgerUnique { s with
          appointments := markCancelled s.appointments req.appointmentId } := hs
      cases hd : findById s.doctors a.docId with
      | none => simpa [cancelAppointment, ha, hown, hd] using hs1
      | some doctorData =>
        cases hg : getProp doctorData.slots_booked a.slotDate with
        | undefined => simpa [cancelAppointment, ha, hown, hd, hg] using hs1
        | inherited => simpa [cancelAppointment, ha, hown, hd, hg] using hs1
        | array times =>
          have ht := (getProp_array_iff _ _ _).1 hg
          rw [cancelAppointment_release s req a doctorData times ha hown hd ht]
          have hdoc : ∀ e ∈ doctorData.slots_booked, e.2.Nodup :=
            hs _ (mem_of_findById _ _ _ hd)
          apply LedgerUnique_write s _ _ _ hs
          apply setKey_entries_nodup _ _ _ hdoc
          exact (hdoc _ (mem_of_findById _ _ _ ht)).filter _
    · simpa [cancelAppointment, ha, hown] using hs

theorem step_LedgerUnique (s : Store) (r : Request) (hs : LedgerUnique s) :
    LedgerUnique (step s r) := by
  cases r with
  | book req => exact bookAppointment_LedgerUnique s req hs
  | cancel req => exact cancelAppointment_LedgerUnique s req hs

theorem run_LedgerUnique (reqs : List Request) :
    ∀ s : Store, LedgerUnique s → LedgerUnique (run s reqs) := by
  induction reqs with
  | nil => intro s hs; exact hs
  | cons r rest ih =>
    intro s hs
    exact ih (step s r) (step_LedgerUnique s r hs)

/-- C7: ledger uniqueness (no time label twice under a date, for every doctor) is kept by
every single booking or cancellation request, whatever its answer, and so holds after any
sequence of requests served from a store whose ledgers are all empty. -/
theorem ledger_uniqueness_invariant (s : Store) :
    (LedgerUnique s →
      ∀ (b : BookRequest) (c : CancelRequest),
        LedgerUnique (bookAppointment s b).2 ∧ LedgerUnique (cancelAppointment s c).2) ∧
    (EmptyLedgers s → ∀ reqs : List Request, LedgerUnique (run s reqs)) := by
  refine ⟨fun hs b c =>
    ⟨bookAppointment_LedgerUnique s b hs, cancelAppointment_LedgerUnique s c hs⟩, ?_⟩
  intro he reqs
  apply run_LedgerUnique reqs s
  intro d hd e hmem
  rw [he d hd] at hmem
  simp at hmem

/-! ## Cancellation when the slot is not in the ledger -/

/-- When the date has an entry that lacks the appointment's time, cancellation by the owner
succeeds and every lookup of a date in a doctor's ledger gives what it gave before. -/
theorem cancelAppointment_absent_time (s : Store) (req : CancelRequest) (a : Appointment)
    (d : Doctor) (times : List String)
    (ha : s.appointments[req.appointmentId]? = some a) (hown : a.userId = req.userId)
    (hd : findById s.doctors a.docId = some d)
    (ht : findById d.slots_booked a.slotDate = some times) (hnot : a.slotTime ∉ times) :
    (cancelAppointment s req).1 = { success := true, message := "Appointment Cancelled" } ∧
    ∀ id date,
      (findById (cancelAppointment s req).2.doctors id).bind
          (fun x => findById x.slots_booked date) =
        (findById s.doctors id).bind (fun x => findById x.slots_booked date) := by
  rw [cancelAppointment_release s req a d times ha hown hd ht]
  refine ⟨rfl, fun id date => ?_⟩
  have hf : List.filter (fun e => e != a.slotTime) times = times := by
    rw [List.filter_eq_self]
    intro x hx
    have : x ≠ a.slotTime := fun e => hnot (e ▸ hx)
    simpa using this
  simp only [findById_updateById, hf]
  by_cases hid : id = a.docId
  · subst hid
    by_cases hdate : date = a.slotDate
    · subst hdate
      simp [hd, findById_setKey, ht]
    · simp [hd, findById_setKey, hdate]
  · simp [hid]

/-- C4, evaluated where it fails: the owner cancels an appointment whose date has no entry
in the doctor's ledger.  The record is marked cancelled, the read of `.filter` on
`undefined` throws, and the answer is `success:false` with the error's message. -/
theorem cancelAppointment_missing_date_entry :
    slotBooked staleClinic "D1" "01_01_2030" "10:00 AM" = false ∧
    cancelAppointment staleClinic ⟨"U1", 0⟩ =
      (caught (.readOfUndefined "filter"),
       { staleClinic with
         appointments := [⟨"U1", "D1", 500, "10:00 AM", "01_01_2030", true⟩] }) ∧
    (cancelAppointment staleClinic ⟨"U1", 0⟩).1.success = false := by
  decide

/-! ## Repeated cancellation -/

/-- C10, evaluated where it fails: from a store without appointments and with empty
ledgers, after the first four requests of `doubleCancel` the appointment of U2 is not
cancelled yet its slot is missing from the ledger, and after the fifth request two
appointments that are not cancelled hold the same (doctor, date, time). -/
theorem repeated_cancel_double_booking :
    clinic.appointments = [] ∧ EmptyLedgers clinic ∧
    (run clinic (doubleCancel.take 4)).appointments[1]? =
      some ⟨"U2", "D1", 500, "10:00 AM", "01_01_2030", false⟩ ∧
    slotBooked (run clinic (doubleCancel.take 4)) "D1" "01_01_2030" "10:00 AM" = false ∧
    ¬ ActiveSlotsBooked (run clinic (doubleCancel.take 4)) ∧
    (bookAppointment (run clinic (doubleCancel.take 4))
      ⟨"U1", "D1", "01_01_2030", "10:00 AM"⟩).1 =
      { success := true, message := "Appointment Booked" } ∧
    ¬ NoDoubleBooking (run clinic doubleCancel) ∧
    activeSlots (run clinic doubleCancel) =
      [("D1", "01_01_2030", "10:00 AM"), ("D1", "01_01_2030", "10:00 AM")] := by
  decide

/-! ### What does hold: exclusion of slots as long as nothing is cancelled twice -/

theorem slotBooked_false_of_case (docData : Doctor) (s : Store) (req : BookRequest)
    (old : List String) (hd : findById s.doctors req.docId = some docData)
    (hcase : (getProp docData.slots_booked req.slotDate = .array old ∧ req.slotTime ∉ old) ∨
      (getProp docData.slots_booked req.slotDate = .undefined ∧ old = [])) :
    slotBooked s req.docId req.slotDate req.slotTime = false := by
  rcases hcase with ⟨hg, hnot⟩ | ⟨hg, -⟩
  · have ht := (getProp_array_iff _ _ _).1 hg
    simp [slotBooked, hd, ht, hnot]
  · cases ht : findById docData.slots_booked req.slotDate with
    | none => simp [slotBooked, hd, ht]
    | some v => simp [getProp, ht] at hg

theorem slotBooked_commit_mono (s : Store) (req : BookRequest) (docData : Doctor)
    (old : List String) (hd : findById s.doctors req.docId = some docData)
    (hcase : (getProp docData.slots_booked req.slotDate = .array old ∧ req.slotTime ∉ old) ∨
      (getProp docData.slots_booked req.slotDate = .undefined ∧ old = []))
    (d date time : String) (h : slotBooked s d date time = true) :
    slotBooked (commitBooking s req docData
      (setKey docData.slots_booked req.slotDate (old ++ [req.slotTime]))).2 d date time
      = true := by
  unfold slotBooked commitBooking at *
  simp only [findById_updateById]
  by_cases hdoc : d = req.docId
  · subst hdoc
    simp only [hd, if_true, Option.map_some'] at h ⊢
    simp only [findById_setKey]
    by_cases hdate : date = req.slotDate
    · rw [hdate] at h ⊢
      simp only [if_true]
      rcases hcase with ⟨hg, -⟩ | ⟨hg, -⟩
      · have ht := (getProp_array_iff _ _ _).1 hg
        simp only [ht] at h
        simp at h ⊢
        exact Or.inl h
      · cases ht : findById docData.slots_booked req.slotDate with
        | none => simp [ht] at h
        | some v => simp [getProp, ht] at hg
    · simpa [hdate] using h
  · simpa [hdoc] using h

theorem bookAppointment_keeps_exclusion (s : Store) (req : BookRequest)
    (hA : ActiveSlotsBooked s) (hN : NoDoubleBooking s) :
    ActiveSlotsBooked (bookAppointment s req).2 ∧ NoDoubleBooking (bookAppointment s req).2 := by
  cases hsucc : (bookAppointment s req).1.success with
  | false => rw [bookAppointment_failure s req hsucc]; exact ⟨hA, hN⟩
  | true =>
    obtain ⟨docData, userData, old, hd, -, -, -, hcase, heq⟩ :=
      bookAppointment_success s req hsucc
    rw [heq]
    have hfree := slotBooked_false_of_case docData s req old hd hcase
    have hmono := slotBooked_commit_mono s req docData old hd hcase
    constructor
    · intro a ha hc
      have ha' : a ∈ s.appointments ∨
          a = ⟨req.userId, req.docId, docData.fees, req.slotTime, req.slotDate, false⟩ := by
        simpa [commitBooking] using ha
      rcases ha' with h | rfl
      · exact hmono _ _ _ (hA a h hc)
      · simp [slotBooked, commitBooking, findById_updateById, hd, findById_setKey]
    · have hact : activeSlots (commitBooking s req docData
          (setKey docData.slots_booked req.slotDate (old ++ [req.slotTime]))).2 =
          activeSlots s ++ [(req.docId, req.slotDate, req.slotTime)] := by
        simp [activeSlots, commitBooking, List.filter_append]
      unfold NoDoubleBooking at hN ⊢
      rw [hact]
      refine List.Nodup.append hN (List.nodup_singleton _) ?_
      intro t ht1 ht2
      have ht : t = (req.docId, req.slotDate, req.slotTime) := by simpa using ht2
      subst ht
      simp only [activeSlots, List.mem_map, List.mem_filter] at ht1
      obtain ⟨a, ⟨ha, hc⟩, htriple⟩ := ht1
      have hb := hA a ha (by simpa using hc)
      simp only [Prod.mk.injEq] at htriple
      rw [htriple.1, htriple.2.1, htriple.2.2, hfree] at hb
      exact Bool.noConfusion hb

theorem getElem?_split {α : Type} (l : List α) (i : Nat) (a : α) (h : l[i]? = some a) :
    ∃ pre post, l = pre ++ a :: post ∧ pre.length = i := by
  induction l generalizing i with
  | nil => simp at h
  | cons x xs ih =>
    cases i with
    | zero =>
      simp at h
      exact ⟨[], xs, by simp [h], rfl⟩
    | succ j =>
      simp at h
      obtain ⟨pre, post, e, hl⟩ := ih j h
      exact ⟨x :: pre, post, by simp [e], by simp [hl]⟩

theorem modify_split {α : Type} (f : α → α) (pre post : List α) (a : α) :
    List.modify f pre.length (pre ++ a :: post) = pre ++ f a :: post := by
  induction pre with
  | nil => simp
  | cons x xs ih => simp [ih]

/-- A cancellation by the owner that finds no doctor, or no entry for the date, only marks
the appointment. -/
theorem cancelAppointment_marked_only (s : Store) (req : CancelRequest) (a : Appointment)
    (ha : s.appointments[req.appointmentId]? = some a) (hown : a.userId = req.userId)
    (hno : ∀ d times, findById s.doctors a.docId = some d →
      findById d.slots_booked a.slotDate ≠ some times) :
    (cancelAppointment s req).2 =
      { users := s.users, doctors := s.doctors
        appointments := markCancelled s.appointments req.appointmentId } := by
  cases hd : findById s.doctors a.docId with
  | none => simp [cancelAppointment, ha, hown, hd]
  | some d =>
    cases hg : getProp d.slots_booked a.slotDate with
    | undefined => simp [cancelAppointment, ha, hown, hd, hg]
    | inherited => simp [cancelAppointment, ha, hown, hd, hg]
    | array times => exact absurd ((getProp_array_iff _ _ _).1 hg) (hno d times hd)

theorem cancelAppointment_keeps_exclusion (s : Store) (req : CancelRequest)
    (hA : ActiveSlotsBooked s) (hN : NoDoubleBooking s)
    (hfresh : ∀ a, s.appointments[req.appointmentId]? = some a → a.cancelled = false) :
    ActiveSlotsBooked (cancelAppointment s req).2 ∧
      NoDoubleBooking (cancelAppointment s req).2 := by
  cases ha : s.appointments[req.appointmentId]? with
  | none => simpa [cancelAppointment, ha] using ⟨hA, hN⟩
  | some a =>
    by_cases hown : a.userId = req.userId
    swap
    · simpa [cancelAppointment, ha, hown] using ⟨hA, hN⟩
    have hca := hfresh a ha
    obtain ⟨pre, post, hsplit, hlen⟩ := getElem?_split _ _ _ ha
    have hmark : markCancelled s.appointments req.appointmentId =
        pre ++ { a with cancelled := true } :: post := by
      rw [markCancelled, hsplit, ← hlen, modify_split]
    -- the triples of the active appointments before and after the mark
    have hact : activeSlots s =
        (pre.filter (fun b => !b.cancelled)).map (fun b => (b.docId, b.slotDate, b.slotTime))
          ++ (a.docId, a.slotDate, a.slotTime) ::
        (post.filter (fun b => !b.cancelled)).map
          (fun b => (b.docId, b.slotDate, b.slotTime)) := by
      simp [activeSlots, hsplit, List.filter_append, List.filter_cons, hca]
    unfold NoDoubleBooking at hN
    rw [hact] at hN
    obtain ⟨hnotin, hrest⟩ := List.nodup_cons.1 (List.nodup_middle.1 hN)
    -- every appointment still active after the mark was active before, on another slot
    have hother : ∀ b ∈ pre ++ { a with cancelled := true } :: post, b.cancelled = false →
        b ∈ s.appointments ∧
          (b.docId, b.slotDate, b.slotTime) ≠ (a.docId, a.slotDate, a.slotTime) := by
      intro b hb hc
      have hb' : b ∈ pre ∨ b = { a with cancelled := true } ∨ b ∈ post := by
        simpa using hb
      have hmem : b ∈ pre ∨ b ∈ post := by
        rcases hb' with h | h | h
        · exact Or.inl h
        · rw [h] at hc; exact Bool.noConfusion hc
        · exact Or.inr h
      refine ⟨by rw [hsplit]; rcases hmem with h | h <;> simp [h], ?_⟩
      intro heq
      apply hnotin
      rw [← heq]
      simp only [List.mem_append, List.mem_map, List.mem_filter]
      rcases hmem with h | h
      · exact Or.inl ⟨b, ⟨h, by simp [hc]⟩, rfl⟩
      · exact Or.inr ⟨b, ⟨h, by simp [hc]⟩, rfl⟩
    have hAS1 : ∀ b ∈ pre ++ { a with cancelled := true } :: post, b.cancelled = false →
        slotBooked s b.docId b.slotDate b.slotTime = true :=
      fun b hb hc => hA b (hother b hb hc).1 hc
    have hmarked : ActiveSlotsBooked
          { users := s.users, doctors := s.doctors
            appointments := markCancelled s.appointments req.appointmentId } ∧
        NoDoubleBooking
          { users := s.users, doctors := s.doctors
            appointments := markCancelled s.appointments req.appointmentId } := by
      rw [hmark]
      refine ⟨fun b hb hc => hAS1 b hb hc, ?_⟩
      unfold NoDoubleBooking
      simpa [activeSlots, List.filter_append, List.filter_cons] using hrest
    cases hd : findById s.doctors a.docId with
    | none =>
      rw [cancelAppointment_marked_only s req a ha hown (by simp [hd])]
      exact hmarked
    | some doctorData =>
      cases hg : getProp doctorData.slots_booked a.slotDate with
      | undefined =>
        rw [cancelAppointment_marked_only s req a ha hown
          (by intro d times h1 h2
              rw [hd] at h1
              cases h1
              simp [getProp, h2] at hg)]
        exact hmarked
      | inherited =>
        rw [cancelAppointment_marked_only s req a ha hown
          (by intro d times h1 h2
              rw [hd] at h1
              cases h1
              simp [getProp, h2] at hg)]
        exact hmarked
      | array times =>
        have ht := (getProp_array_iff _ _ _).1 hg
        rw [cancelAppointment_release s req a doctorData times ha hown hd ht, hmark]
        refine ⟨?_, ?_⟩
        swap
        · unfold NoDoubleBooking
          simpa [activeSlots, List.filter_append, List.filter_cons] using hrest
        intro b hb hc
        obtain ⟨hbmem, hne⟩ := hother b hb hc
        have hbooked := hA b hbmem hc
        unfold slotBooked at hbooked ⊢
        simp only [findById_updateById]
        by_cases hdoc : b.docId = a.docId
        · rw [hdoc] at hbooked ⊢
          simp only [hd, if_true, Option.map_some', findById_setKey] at hbooked ⊢
          by_cases hdate : b.slotDate = a.slotDate
          · rw [hdate] at hbooked ⊢
            simp only [ht, if_true] at hbooked ⊢
            have htime : b.slotTime ≠ a.slotTime := by
              intro e
              exact hne (by rw [hdoc, hdate, e])
            simp at hbooked ⊢
            exact ⟨hbooked, htime⟩
          · simpa [hdate] using hbooked
        · simpa [hdoc] using hbooked

theorem step_keeps_exclusion (s : Store) (r : Request)
    (hA : ActiveSlotsBooked s) (hN : NoDoubleBooking s) (hf : r.fresh s = true) :
    ActiveSlotsBooked (step s r) ∧ NoDoubleBooking (step s r) := by
  cases r with
  | book req => exact bookAppointment_keeps_exclusion s req hA hN
  | cancel req =>
    apply cancelAppointment_keeps_exclusion s req hA hN
    intro a ha
    cases hc : a.cancelled with
    | false => rfl
    | true => simp [Request.fresh, ha, hc] at hf

/-- Served from a store without appointments, a sequence of requests that never cancels an
appointment twice leaves no two active appointments on one slot, and every active
appointment's time recorded in its doctor's ledger. -/
theorem fresh_run_keeps_exclusion (reqs : List Request) :
    ∀ s : Store, s.appointments = [] → FreshRun s reqs = true →
      ActiveSlotsBooked (run s reqs) ∧ NoDoubleBooking (run s reqs) := by
  have key : ∀ (rs : List Request) (s : Store), ActiveSlotsBooked s → NoDoubleBooking s →
      FreshRun s rs = true → ActiveSlotsBooked (run s rs) ∧ NoDoubleBooking (run s rs) := by
    intro rs
    induction rs with
    | nil => intro s hA hN _; exact ⟨hA, hN⟩
    | cons r rest ih =>
      intro s hA hN hf
      simp only [FreshRun, Bool.and_eq_true] at hf
      obtain ⟨h1, h2⟩ := step_keeps_exclusion s r hA hN hf.1
      exact ih (step s r) h1 h2 hf.2
  intro s hs hf
  refine key reqs s ?_ ?_ hf
  · intro a ha; rw [hs] at ha; simp at ha
  · simp [NoDoubleBooking, activeSlots, hs]

/-- The first three requests of `doubleCancel` cancel nothing twice. -/
theorem fresh_run_keeps_exclusion_instance :
    FreshRun clinic (doubleCancel.take 3) = true ∧
    ActiveSlotsBooked (run clinic (doubleCancel.take 3)) ∧
    NoDoubleBooking (run clinic (doubleCancel.take 3)) :=
  ⟨by decide, fresh_run_keeps_exclusion (doubleCancel.take 3) clinic (by decide) (by decide)⟩

/-! ## Date and time labels for the calendar link -/

theorem splitOn_of_not_mem (sep : Char) (a : List Char) (h : sep ∉ a) :
    splitOn sep a = [a] := by
  induction a with
  | nil => rfl
  | cons c cs ih =>
    have hc : ¬ c = sep := fun e => h (by simp [e])
    have hcs : sep ∉ cs := fun e => h (List.mem_cons_of_mem _ e)
    simp [splitOn, hc, ih hcs]

theorem splitOn_append_sep (sep : Char) (a b : List Char) (h : sep ∉ a) :
    splitOn sep (a ++ sep :: b) = a :: splitOn sep b := by
  induction a with
  | nil => simp [splitOn]
  | cons c cs ih =>
    have hc : ¬ c = sep := fun e => h (by simp [e])
    have hcs : sep ∉ cs := fun e => h (List.mem_cons_of_mem _ e)
    simp [splitOn, hc, ih hcs]

/-- C9: for strings d, m, y without an underscore, `formatDateForCalendar` maps
`d_m_y` to `y` followed by `m` and `d`; nothing is validated, so "05_09_2025" gives
"20250905" and "31_02_2030" gives "20300231". -/
theorem formatDateForCalendar_rearranges (d m y : String)
    (hd : '_' ∉ d.data) (hm : '_' ∉ m.data) (hy : '_' ∉ y.data) :
    formatDateForCalendar (d ++ "_" ++ m ++ "_" ++ y) = y ++ m ++ d ∧
    formatDateForCalendar "05_09_2025" = "20250905" ∧
    formatDateForCalendar "31_02_2030" = "20300231" := by
  refine ⟨?_, by decide, by decide⟩
  have hdata : (d ++ "_" ++ m ++ "_" ++ y).data =
      d.data ++ '_' :: (m.data ++ '_' :: y.data) := by
    have hu : "_".data = ['_'] := rfl
    simp [String.data_append, hu]
  unfold formatDateForCalendar
  rw [hdata, splitOn_append_sep _ _ _ hd, splitOn_append_sep _ _ _ hm,
    splitOn_of_not_mem _ _ hy]
  apply String.ext
  simp [interpolate, String.data_append]

theorem twoDigits_facts :
    ∀ n < 100, ' ' ∉ (twoDigits n).data ∧ ':' ∉ (twoDigits n).data ∧
      jsNumber (twoDigits n).data = some n := by
  decide

/-- The hour and minute that `formatTimeForCalendar` reads from `hh:mm MOD`, and the two
instants it formats. -/
theorem formatTimeForCalendar_parsed (h m : Nat) (hh : h < 100) (hm : m < 100)
    (modifier : String) (hmod : ' ' ∉ modifier.data) :
    formatTimeForCalendar (twoDigits h ++ ":" ++ twoDigits m ++ " " ++ modifier) =
      some
        { start := format
            ((if toUpperCase modifier.data = "AM".data ∧
                  (if toUpperCase modifier.data = "PM".data ∧ h ≠ 12 then h + 12 else h) = 12
              then 0
              else (if toUpperCase modifier.data = "PM".data ∧ h ≠ 12 then h + 12 else h))
              * 60 + m)
          stop := format
            ((if toUpperCase modifier.data = "AM".data ∧
                  (if toUpperCase modifier.data = "PM".data ∧ h ≠ 12 then h + 12 else h) = 12
              then 0
              else (if toUpperCase modifier.data = "PM".data ∧ h ≠ 12 then h + 12 else h))
              * 60 + m + 60) } := by
  obtain ⟨hs1, hc1, hn1⟩ := twoDigits_facts h hh
  obtain ⟨hs2, hc2, hn2⟩ := twoDigits_facts m hm
  have hdata : (twoDigits h ++ ":" ++ twoDigits m ++ " " ++ modifier).data =
      ((twoDigits h).data ++ ':' :: (twoDigits m).data) ++ ' ' :: modifier.data := by
    have hu : ":".data = [':'] := rfl
    have hv : " ".data = [' '] := rfl
    simp [String.data_append, hu, hv]
  have hsp : ' ' ∉ (twoDigits h).data ++ ':' :: (twoDigits m).data := by
    simp only [List.mem_append, List.mem_cons, not_or]
    exact ⟨hs1, by decide, hs2⟩
  unfold formatTimeForCalendar
  rw [hdata, splitOn_append_sep _ _ _ hsp, splitOn_of_not_mem _ _ hmod]
  simp only [List.headD_cons, List.get?_eq_getElem?]
  rw [splitOn_append_sep _ _ _ hc1, splitOn_of_not_mem _ _ hc2]
  simp [hn1, hn2]

theorem format_clock (x m : Nat) (hx : x < 24) (hm : m < 60) :
    format (x * 60 + m) = twoDigits x ++ twoDigits m ++ "00" := by
  have e1 : (x * 60 + m) / 60 % 24 = x := by omega
  have e2 : (x * 60 + m) % 60 = m := by omega
  unfold format twoDigits
  rw [e1, e2]
  apply String.ext
  simp [String.data_append]

theorem format_clock_next (x m : Nat) (hm : m < 60) :
    format (x * 60 + m + 60) = twoDigits ((x + 1) % 24) ++ twoDigits m ++ "00" := by
  have e1 : (x * 60 + m + 60) / 60 % 24 = (x + 1) % 24 := by omega
  have e2 : (x * 60 + m + 60) % 60 = m := by omega
  unfold format twoDigits
  rw [e1, e2]
  apply String.ext
  simp [String.data_append]

theorem hours_of_AM (upper : List Char) (h : Nat) (hu : upper = "AM".data) :
    (if upper = "AM".data ∧ (if upper = "PM".data ∧ h ≠ 12 then h + 12 else h) = 12 then 0
      else (if upper = "PM".data ∧ h ≠ 12 then h + 12 else h)) =
      if h = 12 then 0 else h := by
  subst hu
  have hne : ¬ "AM".data = "PM".data := by decide
  simp only [hne, false_and, if_false, true_and]

theorem hours_of_PM (upper : List Char) (h : Nat) (hu : upper = "PM".data) :
    (if upper = "AM".data ∧ (if upper = "PM".data ∧ h ≠ 12 then h + 12 else h) = 12 then 0
      else (if upper = "PM".data ∧ h ≠ 12 then h + 12 else h)) =
      if h = 12 then 12 else h + 12 := by
  subst hu
  have hne : ¬ "PM".data = "AM".data := by decide
  simp only [hne, false_and, if_false, true_and]
  by_cases h12 : h = 12 <;> simp [h12]

/-- C5: for an hour h in 1..12, a minute m in 0..59 (both written with two digits) and a
modifier AM or PM in any letter case, `formatTimeForCalendar` returns the start
HH MM 00 and the end HH' MM 00 with HH = h mod 12 for AM, (h mod 12) + 12 for PM, and
HH' = (HH + 1) mod 24; "02:30 PM" gives 143000/153000, "12:00 AM" gives 000000/010000 and
"11:30 PM" gives 233000/003000. -/
theorem formatTimeForCalendar_one_hour (h m : Nat) (hh : 1 ≤ h ∧ h ≤ 12) (hm : m < 60)
    (am pm : String) (ham : am ∈ ["AM", "Am", "aM", "am"])
    (hpm : pm ∈ ["PM", "Pm", "pM", "pm"]) :
    formatTimeForCalendar (twoDigits h ++ ":" ++ twoDigits m ++ " " ++ am) =
      some { start := twoDigits (h % 12) ++ twoDigits m ++ "00"
             stop := twoDigits ((h % 12 + 1) % 24) ++ twoDigits m ++ "00" } ∧
    formatTimeForCalendar (twoDigits h ++ ":" ++ twoDigits m ++ " " ++ pm) =
      some { start := twoDigits (h % 12 + 12) ++ twoDigits m ++ "00"
             stop := twoDigits ((h % 12 + 12 + 1) % 24) ++ twoDigits m ++ "00" } ∧
    formatTimeForCalendar "02:30 PM" = some { start := "143000", stop := "153000" } ∧
    formatTimeForCalendar "12:00 AM" = some { start := "000000", stop := "010000" } ∧
    formatTimeForCalendar "11:30 PM" = some { start := "233000", stop := "003000" } := by
  refine ⟨?_, ?_, by decide, by decide, by decide⟩
  · have hup : toUpperCase am.data = "AM".data ∧ ' ' ∉ am.data := by
      simp only [List.mem_cons, List.mem_singleton, List.not_mem_nil, or_false] at ham
      rcases ham with e | e | e | e <;> subst e <;> decide
    rw [formatTimeForCalendar_parsed h m (by omega) (by omega) am hup.2,
      hours_of_AM _ h hup.1]
    by_cases h12 : h = 12
    · subst h12
      rw [if_pos rfl, format_clock 0 m (by omega) hm, format_clock_next 0 m hm]
    · have e : h % 12 = h := Nat.mod_eq_of_lt (by omega)
      rw [if_neg h12, e, format_clock h m (by omega) hm,
        format_clock_next h m hm]
  · have hup : toUpperCase pm.data = "PM".data ∧ ' ' ∉ pm.data := by
      simp only [List.mem_cons, List.mem_singleton, List.not_mem_nil, or_false] at hpm
      rcases hpm with e | e | e | e <;> subst e <;> decide
    rw [formatTimeForCalendar_parsed h m (by omega) (by omega) pm hup.2,
      hours_of_PM _ h hup.1]
    by_cases h12 : h = 12
    · subst h12
      rw [if_pos rfl, format_clock 12 m (by omega) hm,
        format_clock_next 12 m hm]
    · have e : h % 12 = h := Nat.mod_eq_of_lt (by omega)
      rw [if_neg h12, e, format_clock (h + 12) m (by omega) hm,
        format_clock_next (h + 12) m hm]

/-! ## Template filling -/

/-- C6, evaluated where it fails: a patient name holding `$$` is inserted as a single `$`,
a name `$&` leaves the placeholder in place, and a name that is itself a placeholder of a
later key is substituted a second time; the substitution the specification describes
inserts each of these names unchanged. -/
theorem fillTemplate_not_exact :
    fillTemplate "Hello \x7b\x7bpatientName\x7d\x7d," [("patientName", some "A$$B")] =
      some "Hello A$B," ∧
    substituteExact [("patientName", some "A$$B")] 0
      "Hello \x7b\x7bpatientName\x7d\x7d,".data = "Hello A$$B,".data ∧
    fillTemplate "Hello \x7b\x7bpatientName\x7d\x7d," [("patientName", some "$&")] =
      some "Hello \x7b\x7bpatientName\x7d\x7d," ∧
    fillTemplate "Hello \x7b\x7bpatientName\x7d\x7d,"
        [("patientName", some "\x7b\x7bmapsUrl\x7d\x7d"), ("mapsUrl", some "M")] =
      some "Hello M," ∧
    substituteExact [("patientName", some "\x7b\x7bmapsUrl\x7d\x7d"), ("mapsUrl", some "M")] 0
      "Hello \x7b\x7bpatientName\x7d\x7d,".data = "Hello \x7b\x7bmapsUrl\x7d\x7d,".data := by
  decide

/-! ## Instances of the conditional statements -/

/-- In `clinic`, U1 books a slot and U2 is then refused the same slot. -/
theorem bookAppointment_same_slot_twice_witness :
    bookAppointment (bookAppointment clinic ⟨"U1", "D1", "01_01_2030", "10:00 AM"⟩).2
        ⟨"U2", "D1", "01_01_2030", "10:00 AM"⟩ =
      ({ success := false, message := "Slot not available" },
       (bookAppointment clinic ⟨"U1", "D1", "01_01_2030", "10:00 AM"⟩).2) :=
  bookAppointment_same_slot_twice clinic "U1" "U2" "D1" "01_01_2030" "10:00 AM"
    ⟨some "+91 91234 56789"⟩ (by decide) (by decide) (by decide)

/-- In `clinic`, U1 books a slot and cancels it; the slot is free afterwards. -/
theorem book_then_cancel_restores_witness :
    (bookAppointment clinic ⟨"U1", "D1", "01_01_2030", "10:00 AM"⟩).1.success = true ∧
    slotBooked (cancelAppointment (bookAppointment clinic
        ⟨"U1", "D1", "01_01_2030", "10:00 AM"⟩).2 ⟨"U1", 0⟩).2
      "D1" "01_01_2030" "10:00 AM" = false :=
  ⟨by decide,
   (book_then_cancel_restores clinic "U1" "D1" "01_01_2030" "10:00 AM" (by decide)).2.2.2.1⟩

/-- In `staleClinic`, U2 may not cancel the appointment of U1. -/
theorem cancelAppointment_non_owner_witness :
    cancelAppointment staleClinic ⟨"U2", 0⟩ =
      ({ success := false, message := "Unauthorized action" }, staleClinic) :=
  cancelAppointment_non_owner staleClinic ⟨"U2", 0⟩
    ⟨"U1", "D1", 500, "10:00 AM", "01_01_2030", false⟩ (by decide) (by decide)

/-- In `clinic`, doctor D2 is unavailable and user U3 has the placeholder phone. -/
theorem bookAppointment_validation_atomic_witness :
    bookAppointment clinic ⟨"U1", "D2", "01_01_2030", "10:00 AM"⟩ =
      ({ success := false, message := "Doctor not available" }, clinic) ∧
    bookAppointment clinic ⟨"U3", "D1", "01_01_2030", "10:00 AM"⟩ =
      ({ success := false,
         message := "To book an appointment add contact number to profile" }, clinic) :=
  ⟨(bookAppointment_validation_atomic clinic ⟨"U1", "D2", "01_01_2030", "10:00 AM"⟩
      ⟨false, 300, []⟩ ⟨some "+91 98765 43210"⟩ (by decide) (by decide)).1 (by decide),
   (bookAppointment_validation_atomic clinic ⟨"U3", "D1", "01_01_2030", "10:00 AM"⟩
      ⟨true, 500, []⟩ ⟨some "0000000000"⟩ (by decide) (by decide)).2 (by decide)
      (Or.inr (Or.inr (by decide)))⟩

/-- Ledger uniqueness after one booking in `clinic` and after the run `doubleCancel`. -/
theorem ledger_uniqueness_invariant_witness :
    LedgerUnique (bookAppointment clinic ⟨"U1", "D1", "01_01_2030", "10:00 AM"⟩).2 ∧
    LedgerUnique (run clinic doubleCancel) :=
  ⟨((ledger_uniqueness_invariant clinic).1 (by decide)
      ⟨"U1", "D1", "01_01_2030", "10:00 AM"⟩ ⟨"U1", 0⟩).1,
   (ledger_uniqueness_invariant clinic).2 (by decide) doubleCancel⟩

/-- The date label 31_02_2030 is rearranged without validation. -/
theorem formatDateForCalendar_rearranges_witness :
    formatDateForCalendar ("31" ++ "_" ++ "02" ++ "_" ++ "2030") = "2030" ++ "02" ++ "31" :=
  (formatDateForCalendar_rearranges "31" "02" "2030" (by decide) (by decide) (by decide)).1

/-- The time label "11:05 pm" starts at 23:05 and ends at 00:05. -/
theorem formatTimeForCalendar_one_hour_witness :
    formatTimeForCalendar (twoDigits 11 ++ ":" ++ twoDigits 5 ++ " " ++ "pm") =
      some { start := twoDigits (11 % 12 + 12) ++ twoDigits 5 ++ "00"
             stop := twoDigits ((11 % 12 + 12 + 1) % 24) ++ twoDigits 5 ++ "00" } :=
  (formatTimeForCalendar_one_hour 11 5 (by decide) (by decide) "am" "pm"
    (by decide) (by decide)).2.1

end Ketpa
